import Mathlib

/-
  Verification development for the VoltDB storage / DR-replication core.

  The definitions below are a shallow embedding of the C++ sources:
    * src/ee/storage/persistenttable.cpp   (PersistentTable operations)
    * src/ee/storage/DRTupleStream.h       (wire-format constants)
    * src/ee/storage/AbstractDRTupleStream.h
  Components whose implementation files are not part of the source tree
  (the DR tuple-stream implementation, the undo-action bodies and the
  binary-log sink) are modelled from the specification; each such
  definition carries a doc comment saying so.

  Machine integers are modelled as Nat/Int; byte buffers as lists;
  the visible content of a table as a list or multiset of tuples.
-/

namespace VoltDB

/-! ## DR wire-format constants (DRTupleStream.h) -/

/-- Version(1), type(1), drId(8), uniqueId(8), hashFlag(1), txnLength(4), parHash(4). -/
def BEGIN_RECORD_SIZE : Nat := 1 + 1 + 8 + 8 + 1 + 4 + 4

/-- Version(1), type(1), drId(8), uniqueId(8). -/
def BEGIN_RECORD_HEADER_SIZE : Nat := 1 + 1 + 8 + 8

/-- Type(1), drId(8), checksum(4). -/
def END_RECORD_SIZE : Nat := 1 + 8 + 4

/-- Type(1), table signature(8). -/
def TXN_RECORD_HEADER_SIZE : Nat := 1 + 8

/-- Type(1), parHash(4). -/
def HASH_DELIMITER_SIZE : Nat := 1 + 4

/-- The DR protocol version byte (DRTupleStream.h). -/
def PROTOCOL_VERSION : Nat := 4

/-! ## Truncate-table decision (persistenttable.cpp, PersistentTable::truncateTable) -/

/-- The possible courses of action taken by `truncateTable`. -/
inductive TruncateChoice
  | noop
  | tupleByTupleDelete
  | tableSwap
deriving DecidableEq

/-- Cut-off for table with no views (persistenttable.cpp). -/
def tableLFCutoffForTrunc : ℚ := 105666 / 1000000

/-- Cut-off for table with views (persistenttable.cpp). -/
def tableWithViewsLFCutoffForTrunc : ℚ := 15416 / 1000000

/-- The control-flow decision at the top of `PersistentTable::truncateTable`:
return immediately when the table is empty; when the table has exactly one
storage block, fall back to `deleteAllTuples` when
`blockLoadFactor <= tableLFCutoffForTrunc` or the table has views and
`blockLoadFactor <= tableWithViewsLFCutoffForTrunc`; otherwise run the
table-swap machinery. -/
def truncateTableChoice (isEmpty : Bool) (blockCount : Nat)
    (blockLoadFactor : ℚ) (viewCount : Nat) : TruncateChoice :=
  if isEmpty then TruncateChoice.noop
  else if blockCount = 1 ∧
      (blockLoadFactor ≤ tableLFCutoffForTrunc ∨
        (viewCount > 0 ∧ blockLoadFactor ≤ tableWithViewsLFCutoffForTrunc)) then
    TruncateChoice.tupleByTupleDelete
  else TruncateChoice.tableSwap

/-! ## Tuple lookup (persistenttable.cpp, PersistentTable::lookupTuple)

A tuple is modelled by its raw inline storage after the tuple header
(`bytes`, holding the visible image followed by the hidden image), its
visible column values and its hidden column values.  Tuples with
non-inlined object columns can have equal values but different raw bytes
(different pointers into object storage), which is why the source keeps
both a `memcmp` path and a value-equality path. -/

/-- The `LookupType` enum used by `lookupTuple`. -/
inductive LookupType
  | byValues
  | forDR
  | forUndo
deriving DecidableEq

/-- The schema facts `lookupTuple` consults. -/
structure LSchema where
  offsetOfHiddenColumns : Nat
  tupleLength : Nat
  hiddenColumnCount : Nat
  uninlinedObjectColumnCount : Nat
deriving DecidableEq

/-- A stored tuple: raw inline bytes plus visible and hidden column values. -/
structure LTuple where
  bytes : List Nat
  visVals : List Int
  hidVals : List Int
deriving DecidableEq

/-- `TableTuple::equalsNoSchemaCheck`: visible values must agree, and hidden
values as well when `includeHidden` is set. -/
def equalsNoSchemaCheck (a b : LTuple) (includeHidden : Bool) : Bool :=
  (a.visVals == b.visVals) && (!includeHidden || a.hidVals == b.hidVals)

/-- A primary-key index: the key columns and the rows it holds. -/
structure PKIndex where
  keyCols : List Nat
  entries : List LTuple
deriving DecidableEq

/-- The key a tuple projects to under an index's column list. -/
def pkKey (cols : List Nat) (t : LTuple) : List (Option Int) :=
  cols.map (fun c => t.visVals.get? c)

/-- `TableIndex::uniqueMatchingTuple`: the entry whose key matches the probe. -/
def uniqueMatchingTuple (pk : PKIndex) (t : LTuple) : Option LTuple :=
  pk.entries.find? (fun r => pkKey pk.keyCols r == pkKey pk.keyCols t)

/-- The table state `lookupTuple` operates over. -/
structure LTable where
  schema : LSchema
  rows : List LTuple
  pkeyIndex : Option PKIndex
deriving DecidableEq

/-- The `tuple_length` computed in the scan path of `lookupTuple`: looking up
by values with hidden columns present compares only up to
`offsetOfHiddenColumns`; every other mode compares the full `tupleLength`. -/
def memcmpLength (schema : LSchema) (lookupType : LookupType) : Nat :=
  if lookupType = LookupType.byValues ∧ schema.hiddenColumnCount > 0 then
    schema.offsetOfHiddenColumns
  else schema.tupleLength

/-- `PersistentTable::lookupTuple`: with a primary-key index, delegate to
`uniqueMatchingTuple`; otherwise scan, byte-comparing inline storage when the
mode is for-undo or the schema has no uninlined object columns, and comparing
values (hidden ones only for DR) otherwise. -/
def lookupTuple (tbl : LTable) (tuple : LTuple) (lookupType : LookupType) :
    Option LTuple :=
  match tbl.pkeyIndex with
  | none =>
    if lookupType = LookupType.forUndo ∨ tbl.schema.uninlinedObjectColumnCount = 0 then
      let len := memcmpLength tbl.schema lookupType
      tbl.rows.find? (fun r => r.bytes.take len == tuple.bytes.take len)
    else
      let includeHiddenColumns : Bool := lookupType == LookupType.forDR
      tbl.rows.find? (fun r => equalsNoSchemaCheck r tuple includeHiddenColumns)
  | some pkeyIndex => uniqueMatchingTuple pkeyIndex tuple

/-! ## Unique-index selection for DR keys
(persistenttable.cpp, PersistentTable::getUniqueIndexForDR and
PersistentTable::computeSmallestUniqueIndex) -/

/-- The facts about a `TableIndex` that the DR-key selection consults. -/
structure TableIndexInfo where
  name : String
  isUniqueIndex : Bool
  isPartialIndex : Bool
  keyTupleLength : Nat
  keyUsesNonInlinedMemory : Bool
  columnIndices : List Nat
deriving DecidableEq

/-- `UINT32_MAX`, the initial value of `smallestIndexTupleLength`. -/
def UINT32_MAX : Nat := 4294967295

/-- The loop state of `computeSmallestUniqueIndex`. -/
structure SmallestAcc where
  smallestUniqueIndex : Option TableIndexInfo
  smallestIndexTupleLength : Nat
  smallestUniqueIndexName : String
deriving DecidableEq

/-- `index->isUniqueIndex() && !index->isPartialIndex()`: the filter applied
to each index by `computeSmallestUniqueIndex`. -/
def candidateForDR (i : TableIndexInfo) : Prop :=
  i.isUniqueIndex = true ∧ i.isPartialIndex = false

instance (i : TableIndexInfo) : Decidable (candidateForDR i) :=
  instDecidableAnd

instance (acc : SmallestAcc) (index : TableIndexInfo) :
    Decidable (∃ b, acc.smallestUniqueIndex = some b ∧
      b.keyUsesNonInlinedMemory = true ∧ index.keyUsesNonInlinedMemory = false) := by
  cases h : acc.smallestUniqueIndex with
  | none => exact Decidable.isFalse (by simp [h])
  | some b =>
      exact decidable_of_iff
        (b.keyUsesNonInlinedMemory = true ∧ index.keyUsesNonInlinedMemory = false)
        ⟨fun hb => ⟨b, rfl, hb⟩, fun ⟨c, hc, hc2⟩ => by
          cases Option.some.inj hc; exact hc2⟩

/-- One iteration of the `BOOST_FOREACH` loop in
`computeSmallestUniqueIndex`: a unique, non-partial index replaces the
current candidate when there is none yet, or the candidate's key uses
non-inlined memory while this index's does not, or this index's key tuple
length (the loop's `indexTupleLength` local) is strictly smaller, or equal
with a lexicographically smaller name. -/
def considerIndexForDR (acc : SmallestAcc) (index : TableIndexInfo) : SmallestAcc :=
  if candidateForDR index then
    if acc.smallestUniqueIndex = none ∨
        (∃ b, acc.smallestUniqueIndex = some b ∧
          b.keyUsesNonInlinedMemory = true ∧ index.keyUsesNonInlinedMemory = false) ∨
        index.keyTupleLength < acc.smallestIndexTupleLength ∨
        (index.keyTupleLength = acc.smallestIndexTupleLength ∧
          index.name < acc.smallestUniqueIndexName) then
      ⟨some index, index.keyTupleLength, index.name⟩
    else acc
  else acc

/-- `PersistentTable::computeSmallestUniqueIndex`, as the fold of the loop
body over the table's index list starting from no candidate. -/
def computeSmallestUniqueIndex (indexes : List TableIndexInfo) :
    Option TableIndexInfo :=
  (indexes.foldl considerIndexForDR ⟨none, UINT32_MAX, ""⟩).smallestUniqueIndex

/-- Modelled from the spec: one byte step of CRC32C (Castagnoli), the checksum
named by `vdbcrc::crc32c` whose implementation file is not part of the source
tree.  Reflected polynomial `0x82F63B78`. -/
def crc32cUpdateByte (crc : Nat) (b : Nat) : Nat :=
  (List.range 8).foldl
    (fun c _ => if c % 2 = 1 then (c / 2) ^^^ 0x82F63B78 else c / 2)
    (crc ^^^ (b % 256))

/-- Modelled from the spec: CRC32C over a byte list with `crc32cInit`
(all-ones initial value) and `crc32cFinish` (final complement). -/
def crc32c (bytes : List Nat) : Nat :=
  (bytes.foldl crc32cUpdateByte 0xFFFFFFFF) ^^^ 0xFFFFFFFF

/-- The four little-endian bytes of one C `int` column index, as the byte
image that `computeSmallestUniqueIndex` checksums. -/
def intLEBytes (n : Nat) : List Nat :=
  [n % 256, n / 256 % 256, n / 65536 % 256, n / 16777216 % 256]

/-- The CRC32C computed over an index's column-indices array. -/
def smallestUniqueIndexCrc (idx : TableIndexInfo) : Nat :=
  crc32c (List.flatten (idx.columnIndices.map intLEBytes))

/-- `PersistentTable::getUniqueIndexForDR`: in active-active mode `(none, 0)`;
otherwise the index computed by `computeSmallestUniqueIndex` together with
the CRC32C of its column indices, or `(none, 0)` when there is none. -/
def getUniqueIndexForDR (isActiveActive : Bool)
    (indexes : List TableIndexInfo) : Option TableIndexInfo × Nat :=
  if isActiveActive then (none, 0)
  else
    match computeSmallestUniqueIndex indexes with
    | none => (none, 0)
    | some idx => (some idx, smallestUniqueIndexCrc idx)

/-- The (key tuple length, name) comparison claimed for the DR-key choice:
`r` precedes `i` when its key is strictly shorter, or equal length with a
lexicographically not larger name. -/
def keyLex (r i : TableIndexInfo) : Prop :=
  r.keyTupleLength < i.keyTupleLength ∨
    (r.keyTupleLength = i.keyTupleLength ∧ r.name ≤ i.name)

/-- Loop-state invariant of `computeSmallestUniqueIndex` (in the all-inline
setting): either no candidate yet, or the cached length and name fields
belong to the currently held candidate, whose key is inline. -/
def accGood (acc : SmallestAcc) : Prop :=
  acc.smallestUniqueIndex = none ∨
    ∃ b, acc.smallestUniqueIndex = some b ∧ b.keyUsesNonInlinedMemory = false ∧
      acc.smallestIndexTupleLength = b.keyTupleLength ∧
      acc.smallestUniqueIndexName = b.name

/-- Concrete index: unique, non-partial, key length 4, key in non-inlined
memory. -/
def drIdxA : TableIndexInfo := ⟨"a", true, false, 4, true, [0]⟩

/-- Concrete index: unique, non-partial, key length 8, inline key. -/
def drIdxB : TableIndexInfo := ⟨"b", true, false, 8, false, [1]⟩

/-- Concrete index: unique, non-partial, key length 4, inline key. -/
def drIdxC : TableIndexInfo := ⟨"c", true, false, 4, false, [0]⟩

/-- Concrete index: unique, non-partial, key length 8, inline key. -/
def drIdxD : TableIndexInfo := ⟨"d", true, false, 8, false, [1]⟩

/-! ## Persistent-table write operations
(persistenttable.cpp: insertPersistentTuple / insertTupleCommon,
deleteTuple, updateTupleWithSpecificIndexes, tryInsertOnAllIndexes,
checkUpdateOnUniqueIndexes, checkNulls)

A tuple is a list of column values with `none` for SQL NULL.  The DR
stream is observed through its buffer of records: an append's `mark` is
the buffer length before the append, and a rollback truncates to the
mark, exactly the contract of `appendTuple`/`rollbackTo`.  Every
operation also yields a trace of its externally visible steps in program
order, used to settle the emission-ordering claim. -/

/-- A tuple of column values; `none` is SQL NULL. -/
abbrev PTuple := List (Option Int)

/-- A table index on the write path: key columns, uniqueness, whether the
key uses non-inlined memory, and the entries currently held. -/
structure MIndex where
  cols : List Nat
  isUniqueIndex : Bool
  keyUsesNonInlinedMemory : Bool
  entries : List PTuple
deriving DecidableEq

/-- The key a tuple projects to under an index's column list. -/
def mKeyOf (cols : List Nat) (t : PTuple) : List (Option (Option Int)) :=
  cols.map t.get?

/-- `TableIndex::addEntry`: on a unique index already holding a matching
key, report the existing tuple as the conflict and add nothing; otherwise
insert the entry. -/
def addEntry (idx : MIndex) (t : PTuple) : MIndex × Option PTuple :=
  if idx.isUniqueIndex then
    match idx.entries.find? (fun r => mKeyOf idx.cols r == mKeyOf idx.cols t) with
    | some r => (idx, some r)
    | none => ({ idx with entries := t :: idx.entries }, none)
  else ({ idx with entries := t :: idx.entries }, none)

/-- `TableIndex::deleteEntry`: remove this tuple's entry. -/
def deleteEntry (idx : MIndex) (t : PTuple) : MIndex :=
  { idx with entries := idx.entries.erase t }

/-- `TableIndex::checkForIndexChange(old,new)`: true iff the indexed
columns differ between the two images. -/
def checkForIndexChange (idx : MIndex) (told tnew : PTuple) : Bool :=
  !(mKeyOf idx.cols told == mKeyOf idx.cols tnew)

/-- `TableIndex::exists`: whether some entry matches the tuple's key. -/
def indexKeyExists (idx : MIndex) (t : PTuple) : Bool :=
  (idx.entries.find? (fun r => mKeyOf idx.cols r == mKeyOf idx.cols t)).isSome

/-- `PersistentTable::tryInsertOnAllIndexes`, the indexed loop rendered as
structural recursion: add the tuple to each index in order; on the first
conflict, return the conflicting tuple after deleting the entries already
added to the earlier indexes (the loop's `for (j = 0; j < i; ++j)
deleteEntry(tuple)`), leaving the later indexes untouched. -/
def tryInsertOnAllIndexes (idxs : List MIndex) (t : PTuple) :
    List MIndex × Option PTuple :=
  match idxs with
  | [] => ([], none)
  | idx :: rest =>
    match addEntry idx t with
    | (_, some c) => (idx :: rest, some c)
    | (idx2, none) =>
      match tryInsertOnAllIndexes rest t with
      | (rest2, some c) => (deleteEntry idx2 t :: rest2, some c)
      | (rest2, none) => (idx2 :: rest2, none)

/-- DR stream records as emitted by the write path. -/
inductive DRRec
  | insertRec (t : PTuple)
  | deleteRec (t : PTuple)
  | updateRec (told tnew : PTuple)
  | truncateRec
deriving DecidableEq

/-- The externally visible steps of a write operation, in program order. -/
inductive WEvent
  | slotWrite      -- staging an image into a freelist slot (not yet active)
  | slotRelease    -- releasing a staged, never-visible slot
  | drAppend       -- appending a record to the DR stream
  | drRollback     -- rolling the DR stream back to the pre-append mark
  | storageMutate  -- a change to visible tuple storage
  | indexMutate    -- a change to index contents
  | viewNotify     -- a materialized-view notification
deriving DecidableEq

/-- Events that write tuple-block storage at all, including staging or
releasing a slot that was never visible. -/
def writesTupleStorage : WEvent → Bool
  | WEvent.slotWrite => true
  | WEvent.slotRelease => true
  | WEvent.storageMutate => true
  | _ => false

/-- Events that mutate the visible table state: active tuple storage or
index contents. -/
def mutatesVisibleState : WEvent → Bool
  | WEvent.storageMutate => true
  | WEvent.indexMutate => true
  | _ => false

/-- Events that mutate tuple storage (in any form) or indexes. -/
def mutatesStorageOrIndexes (e : WEvent) : Bool :=
  writesTupleStorage e || mutatesVisibleState e

/-- Whether an event is a DR append. -/
def isDrAppend : WEvent → Bool
  | WEvent.drAppend => true
  | _ => false

/-- `true` when every DR append in the trace precedes every event selected
by `mutates`: once a selected mutation has happened, no append follows. -/
def appendsPrecede (mutates : WEvent → Bool) (tr : List WEvent) : Bool :=
  !((tr.dropWhile (fun e => !mutates e)).any isDrAppend)

/-- The persistent-table state acted on by the write path. -/
structure WTable where
  allowNulls : List Bool
  tupleLimit : Nat
  isMaterialized : Bool
  drEnabled : Bool
  rows : List PTuple
  idxs : List MIndex
deriving DecidableEq

/-- `PersistentTable::checkNulls`: no non-nullable column holds NULL. -/
def checkNulls (allowNulls : List Bool) (t : PTuple) : Bool :=
  (List.range allowNulls.length).all (fun i =>
    allowNulls.getD i true || !(t.getD i none == none))

/-- The failure outcomes of a write operation.  `fatal` stands for
`throwFatalException` (the engine refuses to continue). -/
inductive WriteErr
  | rowLimitExceeded
  | constraintNotNull
  | constraintUnique (conflict : PTuple)
  | fatal
deriving DecidableEq

/-- The outcome of one write operation: the error if one was thrown, the
state left behind, and the trace of steps taken. -/
structure WriteResult where
  err : Option WriteErr
  tbl : WTable
  stream : List DRRec
  trace : List WEvent
deriving DecidableEq

/-- `PersistentTable::insertPersistentTuple` composed with
`insertTupleCommon`.  In source order: the row-limit check; `nextFreeTuple`
plus `copyForPersistentInsert` staging the image into a free slot; the
NOT-NULL check (throwing frees the staged slot); the DR append of the
insert record at mark `stream.length` when the table is DR-enabled and not
materialized; activation of the tuple (it becomes visible);
`tryInsertOnAllIndexes`, whose conflict rolls the DR stream back to the
mark, throws constraint:unique carrying the conflicting tuple, and frees
the staged slot; then undo registration and view notification. -/
def insertPersistentTuple (tbl : WTable) (stream : List DRRec)
    (source : PTuple) (fallible : Bool) : WriteResult :=
  if fallible ∧ tbl.tupleLimit ≤ tbl.rows.length then
    ⟨some WriteErr.rowLimitExceeded, tbl, stream, []⟩
  else if fallible ∧ checkNulls tbl.allowNulls source = false then
    ⟨some WriteErr.constraintNotNull, tbl, stream,
      [WEvent.slotWrite, WEvent.slotRelease]⟩
  else
    let drMark := stream.length
    let doDR := tbl.drEnabled ∧ ¬ tbl.isMaterialized
    let stream2 := if doDR then stream ++ [DRRec.insertRec source] else stream
    let ev1 := if doDR then [WEvent.drAppend] else []
    match tryInsertOnAllIndexes tbl.idxs source with
    | (idxs2, some c) =>
      ⟨some (WriteErr.constraintUnique c),
        { tbl with idxs := idxs2 },
        stream2.take drMark,
        [WEvent.slotWrite] ++ ev1 ++
          [WEvent.storageMutate, WEvent.indexMutate,
            WEvent.drRollback, WEvent.slotRelease]⟩
    | (idxs2, none) =>
      ⟨none,
        { tbl with rows := source :: tbl.rows, idxs := idxs2 },
        stream2,
        [WEvent.slotWrite] ++ ev1 ++
          [WEvent.storageMutate, WEvent.indexMutate, WEvent.viewNotify]⟩

/-- `PersistentTable::deleteTuple`.  The code asserts the target is active;
then, in source order: the DR append of the delete record when DR-enabled
and not materialized, `deleteFromAllIndexes`, the view notifications under
the temporary pending-delete flag, and the hide/release of the tuple
(deferred via pending-delete-on-undo-release on the fallible path, physical
release otherwise — in both cases the tuple leaves the visible rows). -/
def deleteTupleOp (tbl : WTable) (stream : List DRRec) (target : PTuple)
    (fallible : Bool) : WriteResult :=
  if target ∈ tbl.rows then
    let doDR := tbl.drEnabled ∧ ¬ tbl.isMaterialized
    let stream2 := if doDR then stream ++ [DRRec.deleteRec target] else stream
    let ev1 := if doDR then [WEvent.drAppend] else []
    ⟨none,
      { tbl with rows := tbl.rows.erase target,
                 idxs := tbl.idxs.map (fun idx => deleteEntry idx target) },
      stream2,
      ev1 ++ [WEvent.indexMutate, WEvent.viewNotify, WEvent.storageMutate]⟩
  else
    ⟨some WriteErr.fatal, tbl, stream, []⟩

/-- `PersistentTable::checkUpdateOnUniqueIndexes`: for every unique index in
the update set whose key actually changes, the new image's key must not
already exist. -/
def checkUpdateOnUniqueIndexes (told tnew : PTuple)
    (indexesToUpdate : List MIndex) : Bool :=
  indexesToUpdate.all (fun index =>
    !index.isUniqueIndex || !(checkForIndexChange index told tnew) ||
      !(indexKeyExists index tnew))

/-- `PersistentTable::updateTupleWithSpecificIndexes`.  `inUpdateSet` marks
the caller-chosen subset of indexes whose keys might change.  In source
order: the unique-constraint probe and NOT-NULL check (both before any
mutation and before the DR append), the DR append of the update record, the
removal of the target from every index in the set that requires it (indexes
with inline keys and unchanged indexed columns are skipped), view delete
notification, the in-place write of the new values, the re-insertion into
the removed indexes (a conflict there is `throwFatalException`), and the
view insert notification. -/
def updateTupleOp (tbl : WTable) (stream : List DRRec)
    (targetTupleToUpdate sourceTupleWithNewValues : PTuple)
    (inUpdateSet : MIndex → Bool) (fallible : Bool) : WriteResult :=
  if fallible ∧ checkUpdateOnUniqueIndexes targetTupleToUpdate
      sourceTupleWithNewValues (tbl.idxs.filter inUpdateSet) = false then
    ⟨some (WriteErr.constraintUnique targetTupleToUpdate), tbl, stream, []⟩
  else if fallible ∧ checkNulls tbl.allowNulls sourceTupleWithNewValues = false then
    ⟨some WriteErr.constraintNotNull, tbl, stream, []⟩
  else
    let doDR := tbl.drEnabled ∧ ¬ tbl.isMaterialized
    let stream2 :=
      if doDR then
        stream ++ [DRRec.updateRec targetTupleToUpdate sourceTupleWithNewValues]
      else stream
    let ev1 := if doDR then [WEvent.drAppend] else []
    let requiresUpdate := fun (idx : MIndex) => inUpdateSet idx &&
      (idx.keyUsesNonInlinedMemory ||
        checkForIndexChange idx targetTupleToUpdate sourceTupleWithNewValues)
    let idxs2 := tbl.idxs.map (fun idx =>
      if requiresUpdate idx then deleteEntry idx targetTupleToUpdate else idx)
    let idxs3 := idxs2.map (fun idx =>
      if requiresUpdate idx then (addEntry idx sourceTupleWithNewValues).1 else idx)
    ⟨none,
      { tbl with
          rows := sourceTupleWithNewValues :: tbl.rows.erase targetTupleToUpdate,
          idxs := idxs3 },
      stream2,
      ev1 ++ [WEvent.indexMutate, WEvent.viewNotify, WEvent.storageMutate,
        WEvent.indexMutate, WEvent.viewNotify]⟩

/-! ## Tuple movement during compaction
(persistenttable.cpp, PersistentTable::swapTuples, called from
TupleBlock::merge during doCompactionWithinSubset) -/

/-- A tuple slot as seen by `swapTuples`: the stored data and the header
flags consulted by the move.  The `memcpy` of `m_tupleLength` bytes copies
the header too, so the whole record moves. -/
structure HTuple where
  data : List Int
  active : Bool
  pendingDelete : Bool
  pendingDeleteOnUndoRelease : Bool
deriving DecidableEq

/-- A table index as the multiset of tuple addresses it stores (a
compaction move never changes keys, so only addresses matter here). -/
structure CIndex where
  entries : List Nat
deriving DecidableEq

/-- `TableIndex::replaceEntryNoKeyChange(destination, original)`: entries
holding the original address now hold the destination address. -/
def replaceEntryNoKeyChange (idx : CIndex) (destAddr origAddr : Nat) : CIndex :=
  ⟨idx.entries.map (fun a => if a = origAddr then destAddr else a)⟩

/-- The tuple stored at an address of the block map. -/
def slotAt (slots : List (Nat × HTuple)) (addr : Nat) : Option HTuple :=
  (slots.find? (fun s => s.1 == addr)).map Prod.snd

/-- Overwrite the slot at an address of the block map. -/
def setSlot (slots : List (Nat × HTuple)) (addr : Nat) (t : HTuple) :
    List (Nat × HTuple) :=
  slots.map (fun s => if s.1 = addr then (addr, t) else s)

/-- `PersistentTable::swapTuples(originalTuple, destinationTuple)`: memcpy
the original tuple's storage (flags included) into the destination slot,
deactivate the original slot, assert the tuple is not
pending-delete-on-undo-release (`none` models the assertion firing), and —
unless the tuple is pending delete, in which case it is assumed to be in no
index — rewrite its entry in every index via `replaceEntryNoKeyChange`. -/
def swapTuples (slots : List (Nat × HTuple)) (idxs : List CIndex)
    (origAddr destAddr : Nat) : Option (List (Nat × HTuple) × List CIndex) :=
  match slotAt slots origAddr with
  | none => none
  | some orig =>
    if orig.pendingDeleteOnUndoRelease then none
    else
      let slots2 :=
        setSlot (setSlot slots destAddr orig) origAddr { orig with active := false }
      let idxs2 :=
        if orig.pendingDelete then idxs
        else idxs.map (fun idx => replaceEntryNoKeyChange idx destAddr origAddr)
      some (slots2, idxs2)

/-- Concrete block map for the compaction witness: an active tuple at
address 0 and a free slot at address 1. -/
def c10Slots : List (Nat × HTuple) :=
  [(0, ⟨[7], true, false, false⟩), (1, ⟨[0], false, false, false⟩)]

/-- Concrete index holding the moved tuple's address 0 and another
address 5. -/
def c10Idxs : List CIndex := [⟨[0, 5]⟩]

/-- The block map after moving address 0 to address 1. -/
def c10SwapSlots : List (Nat × HTuple) :=
  [(0, ⟨[7], false, false, false⟩), (1, ⟨[7], true, false, false⟩)]

/-- The index list after the move: entry 0 rewritten to 1. -/
def c10SwapIdxs : List CIndex := [⟨[1, 5]⟩]

/-! ## Transactions, undo and the DR stream watermark

The DR tuple-stream implementation (DRTupleStream.cpp) and the undo-action
bodies (PersistentTableUndoInsert/Delete/UpdateAction) are not part of the
source tree — only their headers, the `rollbackTo`/`endTransaction`
contracts and the tests are.  The transaction-level state below is
therefore modelled from the spec (§3 "DR Stream state", §4.2
"Open-transaction invariants", §5 "Cancellation"). -/

/-- Modelled from the spec: the DR stream state a transaction sees.
`openBuf` holds the open transaction's unpublished records; `closed` holds
committed records not yet pushed to the topend; `published` the buffers
already pushed; `committedSeq` is `lastCommittedSequenceNumber`;
`txnRowCount`/`rowTarget` the per-transaction row budget. -/
structure TxStream where
  openBuf : List DRRec
  closed : List DRRec
  published : List (List DRRec)
  committedSeq : Int
  txnRowCount : Nat
  rowTarget : Nat
deriving DecidableEq

/-- Modelled from the spec: appending one row record to the stream.  The
append fails (buffer-overflow, txn-fatal) when the per-transaction row
budget `m_rowTarget` is exhausted; otherwise the record enters the open
buffer and the returned mark is the pre-append offset. -/
def appendRecord (st : TxStream) (r : DRRec) : Option (TxStream × Nat) :=
  if st.rowTarget ≤ st.txnRowCount then none
  else
    some ({ st with openBuf := st.openBuf ++ [r], txnRowCount := st.txnRowCount + 1 },
      st.openBuf.length)

/-- `AbstractDRTupleStream::rollbackTo(mark, drRowCost)`, modelled from the
spec: truncate the open buffer back to the mark and give back the row
cost. -/
def rollbackTo (st : TxStream) (mark : Nat) (drRowCost : Nat) : TxStream :=
  { st with openBuf := st.openBuf.take mark,
            txnRowCount := st.txnRowCount - drRowCost }

/-- Modelled from the spec: `endTransaction` writes the end record with the
body CRC, moves the open frame to the committed bytes, advances
`lastCommittedSequenceNumber` and resets the row count; with zero appends it
is a no-op.  (Only this step ever advances `committedSeq`.) -/
def endTransactionTx (st : TxStream) (sequenceNumber : Int) : TxStream :=
  if st.openBuf = [] then st
  else { st with openBuf := [],
                 closed := st.closed ++ st.openBuf,
                 committedSeq := sequenceNumber,
                 txnRowCount := 0 }

/-- Modelled from the spec: a periodic flush pushes the committed bytes (if
any) to the topend as one buffer; an open transaction's bytes are never
pushed. -/
def flushStream (st : TxStream) : TxStream :=
  if st.closed = [] then st
  else { st with closed := [], published := st.published ++ [st.closed] }

/-- A transaction-level operation on one DR-enabled table. -/
inductive TxOp
  | insOp (t : PTuple)
  | delOp (t : PTuple)
  | updOp (told tnew : PTuple)
deriving DecidableEq

/-- Applying one operation to the visible table, a multiset of tuples.
Delete and update require the target to be present (the code asserts the
target tuple is active). -/
def applyTxOp (op : TxOp) (tbl : Multiset PTuple) : Option (Multiset PTuple) :=
  match op with
  | TxOp.insOp t => some (t ::ₘ tbl)
  | TxOp.delOp t => if t ∈ tbl then some (tbl.erase t) else none
  | TxOp.updOp told tnew =>
      if told ∈ tbl then some (tnew ::ₘ tbl.erase told) else none

/-- The DR record an operation emits. -/
def recFor : TxOp → DRRec
  | TxOp.insOp t => DRRec.insertRec t
  | TxOp.delOp t => DRRec.deleteRec t
  | TxOp.updOp told tnew => DRRec.updateRec told tnew

/-- Modelled from the spec: the storage half of the undo action registered
for an operation — the inverse mutation (the DR mark is kept alongside). -/
def undoTxOp (op : TxOp) (tbl : Multiset PTuple) : Multiset PTuple :=
  match op with
  | TxOp.insOp t => tbl.erase t
  | TxOp.delOp t => t ::ₘ tbl
  | TxOp.updOp told tnew => told ::ₘ tbl.erase tnew

/-- The two transaction-fatal failure kinds of the run loop. -/
inductive TxFail
  | bufferOverflow
  | missingTarget
deriving DecidableEq

/-- Run a transaction's operations in order.  Each operation checks its
precondition, appends its DR record (capturing the mark) before mutating,
then mutates the table and registers its undo action (inverse op and mark,
most recent first).  On failure the state reached and the undo actions
accumulated so far are handed to the caller, who must abort. -/
def runTxOps (ops : List TxOp) (st : Multiset PTuple × TxStream)
    (undo : List (TxOp × Nat)) :
    Except (TxFail × (Multiset PTuple × TxStream) × List (TxOp × Nat))
      ((Multiset PTuple × TxStream) × List (TxOp × Nat)) :=
  match ops with
  | [] => Except.ok (st, undo)
  | op :: rest =>
    match applyTxOp op st.1 with
    | none => Except.error (TxFail.missingTarget, st, undo)
    | some tbl2 =>
      match appendRecord st.2 (recFor op) with
      | none => Except.error (TxFail.bufferOverflow, st, undo)
      | some (st2, mark) => runTxOps rest (tbl2, st2) ((op, mark) :: undo)

/-- Modelled from the spec: aborting a transaction runs the undo actions in
reverse registration order; each action reverses its storage mutation and
calls `rollbackTo(mark, rowCost)` on the stream. -/
def runUndo (undo : List (TxOp × Nat)) (st : Multiset PTuple × TxStream) :
    Multiset PTuple × TxStream :=
  match undo with
  | [] => st
  | (op, mark) :: rest =>
      runUndo rest (undoTxOp op st.1, rollbackTo st.2 mark 1)

/-- A fresh DR stream: nothing open, committed or published, watermark −1,
row budget 100. -/
def freshStream : TxStream := ⟨[], [], [], -1, 0, 100⟩

/-- A stream with a row budget of one, for the overflow witness. -/
def tinyStream : TxStream := ⟨[], [], [], -1, 0, 1⟩

/-! ## Binary-log sink conflict detection and export

The sink implementation (BinaryLogSink.cpp) is not part of the source
tree; the per-record semantics below are modelled from the spec (§4.3,
§4.4) with the carrier/row-count behaviour fixed by the expectations of
DRBinaryLog_test.cpp (the Detect* test cases). -/

/-- The delete-side conflict taxonomy (§4.4). -/
inductive DeleteConflictType
  | noConflict
  | expectedRowMissing
  | expectedRowMismatch
deriving DecidableEq

/-- The insert-side conflict taxonomy (§4.4). -/
inductive InsertConflictType
  | noConflict
  | constraintViolation
deriving DecidableEq

/-- The applied record's action type. -/
inductive DRActionType
  | insertAction
  | deleteAction
  | updateAction
deriving DecidableEq

/-- A replica row as the sink sees it: the visible values and the hidden DR
timestamp. -/
structure SRow where
  vals : PTuple
  drTimestamp : Int
deriving DecidableEq

/-- Modelled from the spec: the sink's view of one replica table — its rows
and the column lists of its unique indexes, the first being the
primary/DR key. -/
structure SinkTable where
  uniqueKeyColsList : List (List Nat)
  rows : List SRow
deriving DecidableEq

/-- Whether two rows agree on one unique index's columns. -/
def sameKey (cols : List Nat) (a b : SRow) : Bool :=
  mKeyOf cols a.vals == mKeyOf cols b.vals

/-- Lookup for-DR: the full row image including the hidden timestamp. -/
def sinkFindForDR (tbl : SinkTable) (t : SRow) : Option SRow :=
  tbl.rows.find? (fun r => r == t)

/-- Lookup by the primary/DR key, for the delete-mismatch classification. -/
def sinkFindByPK (tbl : SinkTable) (t : SRow) : Option SRow :=
  match tbl.uniqueKeyColsList with
  | [] => none
  | pk :: _ => tbl.rows.find? (fun r => sameKey pk r t)

/-- The local row (the spec's "any other local row": rows in `excl` are
excluded) conflicting with `t` on some unique index. -/
def sinkFindConflict (tbl : SinkTable) (excl : List SRow) (t : SRow) :
    Option SRow :=
  tbl.rows.find? (fun r => !(excl.contains r) &&
    tbl.uniqueKeyColsList.any (fun cols => sameKey cols r t))

/-- Modelled from the spec: the conflict report the sink assembles for one
applied record — exactly one delete-side and one insert-side conflict type,
plus the four tuple carriers (an absent carrier is the empty list). -/
structure ConflictReport where
  actionType : DRActionType
  deleteConflict : DeleteConflictType
  insertConflict : InsertConflictType
  existingRowsForDelete : List SRow
  expectedRowsForDelete : List SRow
  existingRowsForInsert : List SRow
  newRowsForInsert : List SRow
deriving DecidableEq

/-- Modelled from the spec: applying a DELETE record for `expected`.  Found
including the timestamp: delete, no conflict.  A row with the expected key
but another image: delete-timestamp-mismatch, reporting the existing and the
expected row.  No such row: delete-missing, reporting the expected row. -/
def applyDeleteRecord (tbl : SinkTable) (expected : SRow) :
    SinkTable × ConflictReport :=
  match sinkFindForDR tbl expected with
  | some r =>
      ({ tbl with rows := tbl.rows.erase r },
        ⟨DRActionType.deleteAction, DeleteConflictType.noConflict,
          InsertConflictType.noConflict, [], [], [], []⟩)
  | none =>
    match sinkFindByPK tbl expected with
    | some r =>
        (tbl,
          ⟨DRActionType.deleteAction, DeleteConflictType.expectedRowMismatch,
            InsertConflictType.noConflict, [r], [expected], [], []⟩)
    | none =>
        (tbl,
          ⟨DRActionType.deleteAction, DeleteConflictType.expectedRowMissing,
            InsertConflictType.noConflict, [], [expected], [], []⟩)

/-- Modelled from the spec: applying an INSERT record.  A local row sharing
a unique key is an insert-constraint-violation, reported with the existing
offending row and the incoming row. -/
def applyInsertRecord (tbl : SinkTable) (newRow : SRow) :
    SinkTable × ConflictReport :=
  match sinkFindConflict tbl [] newRow with
  | some r =>
      (tbl,
        ⟨DRActionType.insertAction, DeleteConflictType.noConflict,
          InsertConflictType.constraintViolation, [], [], [r], [newRow]⟩)
  | none =>
      ({ tbl with rows := newRow :: tbl.rows },
        ⟨DRActionType.insertAction, DeleteConflictType.noConflict,
          InsertConflictType.noConflict, [], [], [], []⟩)

/-- Modelled from the spec: applying an UPDATE record (delete of the
expected image, then insert of the new image).  The delete side is
classified as for a delete; the insert side by unique conflict against any
other local row; on any conflict the expected row and the incoming new row
are included in the report and the update is not applied. -/
def applyUpdateRecord (tbl : SinkTable) (expected newRow : SRow) :
    SinkTable × ConflictReport :=
  match sinkFindForDR tbl expected with
  | some r =>
    match sinkFindConflict tbl [r] newRow with
    | some r2 =>
        (tbl,
          ⟨DRActionType.updateAction, DeleteConflictType.noConflict,
            InsertConflictType.constraintViolation,
            [], [expected], [r2], [newRow]⟩)
    | none =>
        ({ tbl with rows := newRow :: tbl.rows.erase r },
          ⟨DRActionType.updateAction, DeleteConflictType.noConflict,
            InsertConflictType.noConflict, [], [], [], []⟩)
  | none =>
    match sinkFindByPK tbl expected with
    | some r =>
      match sinkFindConflict tbl [r] newRow with
      | some r2 =>
          (tbl,
            ⟨DRActionType.updateAction, DeleteConflictType.expectedRowMismatch,
              InsertConflictType.constraintViolation,
              [r], [expected], [r2], [newRow]⟩)
      | none =>
          (tbl,
            ⟨DRActionType.updateAction, DeleteConflictType.expectedRowMismatch,
              InsertConflictType.noConflict, [r], [expected], [], [newRow]⟩)
    | none =>
      match sinkFindConflict tbl [] newRow with
      | some r2 =>
          (tbl,
            ⟨DRActionType.updateAction, DeleteConflictType.expectedRowMissing,
              InsertConflictType.constraintViolation,
              [], [expected], [r2], [newRow]⟩)
      | none =>
          (tbl,
            ⟨DRActionType.updateAction, DeleteConflictType.expectedRowMissing,
              InsertConflictType.noConflict, [], [expected], [], [newRow]⟩)

/-- The tuple-carrier tag of one conflict-export row. -/
inductive ConflictRowType
  | existingRow
  | expectedRow
  | newRow
deriving DecidableEq

/-- One conflict-export row: carrier tag, action type, the conflict types
and the tuple payload (cf. the export schema in the tests). -/
structure ExportRow where
  rowType : ConflictRowType
  actionType : DRActionType
  deleteConflict : DeleteConflictType
  insertConflict : InsertConflictType
  tuple : SRow
deriving DecidableEq

/-- Modelled from the spec: the export emission for one conflict report —
one export row per non-empty tuple carried. -/
def exportConflictRows (rep : ConflictReport) : List ExportRow :=
  rep.existingRowsForDelete.map (fun t =>
    ⟨ConflictRowType.existingRow, rep.actionType, rep.deleteConflict,
      rep.insertConflict, t⟩) ++
  rep.expectedRowsForDelete.map (fun t =>
    ⟨ConflictRowType.expectedRow, rep.actionType, rep.deleteConflict,
      rep.insertConflict, t⟩) ++
  rep.existingRowsForInsert.map (fun t =>
    ⟨ConflictRowType.existingRow, rep.actionType, rep.deleteConflict,
      rep.insertConflict, t⟩) ++
  rep.newRowsForInsert.map (fun t =>
    ⟨ConflictRowType.newRow, rep.actionType, rep.deleteConflict,
      rep.insertConflict, t⟩)

/-- The number of non-empty existing/expected/new tuples a report includes. -/
def includedTupleCount (rep : ConflictReport) : Nat :=
  rep.existingRowsForDelete.length + rep.expectedRowsForDelete.length +
    rep.existingRowsForInsert.length + rep.newRowsForInsert.length

/-- A sink table with a primary key on column 0 and a unique index on
column 1, holding no rows (the delete-missing scenario). -/
def c5TblEmpty : SinkTable := ⟨[[0], [1]], []⟩

/-- The deleted row of the spec's delete-missing scenario. -/
def c5Expected : SRow := ⟨[some 42, some 55555], 70⟩

/-- The replica table of the spec's insert-constraint scenario: rows
`(99, 55555)` and `(42, 34523)` committed at T71. -/
def c5TblIns : SinkTable :=
  ⟨[[0], [1]], [⟨[some 99, some 55555], 71⟩, ⟨[some 42, some 34523], 71⟩]⟩

/-- The incoming row of the spec's insert-constraint scenario. -/
def c5NewRow : SRow := ⟨[some 42, some 34523], 72⟩

end VoltDB

/-! ## Theorems -/

namespace VoltDB

/-- **C8.** The DR wire-format record sizes are the fixed constants claimed: begin
record 27 bytes, begin header 18 bytes, end record 13 bytes, row-record header
9 bytes, hash delimiter 5 bytes, and the protocol version equals 4. -/
theorem c8_record_sizes :
    BEGIN_RECORD_SIZE = 27 ∧ BEGIN_RECORD_HEADER_SIZE = 18 ∧
    END_RECORD_SIZE = 13 ∧ TXN_RECORD_HEADER_SIZE = 9 ∧
    HASH_DELIMITER_SIZE = 5 ∧ PROTOCOL_VERSION = 4 := by
  refine ⟨rfl, rfl, rfl, rfl, rfl, rfl⟩

/-- **C4.** Evaluation of the truncate decision on a non-empty, single-block
table with one view whose block load factor is 0.05: the load factor is
strictly above the with-views cut-off 0.015416, so by the claim the swap
machinery should be used, yet the code performs a tuple-by-tuple delete,
because the view-less cut-off 0.105666 is applied to every table (the
with-views disjunct of the condition is subsumed and dead). -/
theorem c4_truncate_views_cutoff_dead :
    truncateTableChoice false 1 (1 / 20) 1 = TruncateChoice.tupleByTupleDelete ∧
    tableWithViewsLFCutoffForTrunc < 1 / 20 ∧
    (1 : ℚ) / 20 ≤ tableLFCutoffForTrunc := by
  refine ⟨?_, by norm_num [tableWithViewsLFCutoffForTrunc], by norm_num [tableLFCutoffForTrunc]⟩
  rw [truncateTableChoice]
  norm_num [tableLFCutoffForTrunc, tableWithViewsLFCutoffForTrunc]

/-- **C6.** Lookup-mode semantics of `lookupTuple`:
(1) whenever a primary-key index exists, every mode delegates to it;
otherwise the table is scanned, and
(2) a by-values lookup reads nothing from the probe's hidden columns
(probes equal on visible values and on the bytes before the hidden region
give the same result),
(3) a for-DR scan match includes the hidden columns in the equality
(full-storage bytes in the memcmp path, hidden values in the value path), and
(4) a for-undo lookup byte-compares the raw tuple storage. -/
theorem c6_lookup_modes (tbl : LTable) (probe probe2 : LTuple)
    (lookupType : LookupType) :
    (∀ pk, tbl.pkeyIndex = some pk →
        lookupTuple tbl probe lookupType = uniqueMatchingTuple pk probe) ∧
    (tbl.pkeyIndex = none → 0 < tbl.schema.hiddenColumnCount →
        probe.visVals = probe2.visVals →
        probe.bytes.take tbl.schema.offsetOfHiddenColumns
          = probe2.bytes.take tbl.schema.offsetOfHiddenColumns →
        lookupTuple tbl probe LookupType.byValues
          = lookupTuple tbl probe2 LookupType.byValues) ∧
    (tbl.pkeyIndex = none → ∀ r,
        lookupTuple tbl probe LookupType.forDR = some r →
        (tbl.schema.uninlinedObjectColumnCount = 0 →
          r.bytes.take tbl.schema.tupleLength
            = probe.bytes.take tbl.schema.tupleLength) ∧
        (tbl.schema.uninlinedObjectColumnCount ≠ 0 →
          r.visVals = probe.visVals ∧ r.hidVals = probe.hidVals)) ∧
    (tbl.pkeyIndex = none →
        lookupTuple tbl probe LookupType.forUndo
          = tbl.rows.find? (fun r =>
              r.bytes.take tbl.schema.tupleLength
                == probe.bytes.take tbl.schema.tupleLength)) := by
  refine ⟨?_, ?_, ?_, ?_⟩
  · intro pk hpk
    simp [lookupTuple, hpk]
  · intro hpk hhid hvis hbytes
    by_cases hun : tbl.schema.uninlinedObjectColumnCount = 0
    · have hlen : memcmpLength tbl.schema LookupType.byValues
          = tbl.schema.offsetOfHiddenColumns := by
        simp [memcmpLength, hhid]
      simp only [lookupTuple, hpk, hun, or_true, if_true, hlen, hbytes]
    · simp only [lookupTuple, hpk]
      rw [if_neg (by simp [hun]), if_neg (by simp [hun])]
      have hb : (LookupType.byValues == LookupType.forDR) = false := by decide
      simp [equalsNoSchemaCheck, hb, hvis]
  · intro hpk r hr
    by_cases hun : tbl.schema.uninlinedObjectColumnCount = 0
    · refine ⟨fun _ => ?_, fun h => absurd hun h⟩
      simp only [lookupTuple, hpk, hun, or_true, if_true] at hr
      have := List.find?_some hr
      have hlen : memcmpLength tbl.schema LookupType.forDR
          = tbl.schema.tupleLength := by
        simp [memcmpLength]
      rw [hlen] at this
      exact eq_of_beq this
    · refine ⟨fun h => absurd h hun, fun _ => ?_⟩
      simp only [lookupTuple, hpk] at hr
      rw [if_neg (by simp [hun])] at hr
      have := List.find?_some hr
      simp only [equalsNoSchemaCheck, Bool.and_eq_true, Bool.or_eq_true,
        beq_iff_eq] at this
      rcases this with ⟨h1, h2⟩
      rcases h2 with h2 | h2
      · simp at h2
      · exact ⟨h1, h2⟩
  · intro hpk
    have hlen : memcmpLength tbl.schema LookupType.forUndo
        = tbl.schema.tupleLength := by
      simp [memcmpLength]
    simp [lookupTuple, hpk, hlen]

/-- A concrete schema for the lookup witness: two visible bytes, three bytes
in total, one hidden column, no uninlined object columns. -/
def lkSchema0 : LSchema := ⟨2, 3, 1, 0⟩

/-- A concrete row for the lookup witness. -/
def lkRow0 : LTuple := ⟨[10, 20, 30], [5], [7]⟩

/-- A concrete table without a primary-key index for the lookup witness. -/
def lkTbl0 : LTable := ⟨lkSchema0, [lkRow0], none⟩

/-- A probe equal to `lkRow0` on the visible region. -/
def lkProbe1 : LTuple := ⟨[10, 20, 99], [5], [8]⟩

/-- A probe with the same visible region as `lkProbe1` but other hidden data. -/
def lkProbe2 : LTuple := ⟨[10, 20, 44], [5], [9]⟩

/-- Witness for **C6**: the by-values lookup on the concrete table gives the
same answer for two probes that differ only in their hidden data. -/
theorem c6_lookup_modes_witness :
    lookupTuple lkTbl0 lkProbe1 LookupType.byValues
      = lookupTuple lkTbl0 lkProbe2 LookupType.byValues :=
  (c6_lookup_modes lkTbl0 lkProbe1 lkProbe2 LookupType.byValues).2.1
    rfl (by decide) (by decide) (by decide)

lemma keyLex_refl (r : TableIndexInfo) : keyLex r r := Or.inr ⟨rfl, le_rfl⟩

lemma keyLex_trans {a b c : TableIndexInfo} (h1 : keyLex a b) (h2 : keyLex b c) :
    keyLex a c := by
  rcases h1 with h1 | ⟨h1e, h1n⟩
  · rcases h2 with h2 | ⟨h2e, _⟩
    · exact Or.inl (h1.trans h2)
    · exact Or.inl (h2e ▸ h1)
  · rcases h2 with h2 | ⟨h2e, h2n⟩
    · exact Or.inl (h1e ▸ h2)
    · exact Or.inr ⟨h1e.trans h2e, le_trans h1n h2n⟩

lemma considerIndexForDR_of_not_candidate {i : TableIndexInfo}
    (hc : ¬ candidateForDR i) (acc : SmallestAcc) :
    considerIndexForDR acc i = acc := by
  rw [considerIndexForDR, if_neg hc]

lemma foldl_consider_skip {l : List TableIndexInfo} {acc : SmallestAcc}
    (h : ∀ i ∈ l, ¬ candidateForDR i) :
    l.foldl considerIndexForDR acc = acc := by
  induction l generalizing acc with
  | nil => rfl
  | cons i l ih =>
    rw [List.foldl_cons,
      considerIndexForDR_of_not_candidate (h i (List.mem_cons_self i l))]
    exact ih (fun j hj => h j (List.mem_cons_of_mem i hj))

lemma considerIndexForDR_cases (acc : SmallestAcc) (i : TableIndexInfo) :
    considerIndexForDR acc i = acc ∨
      (candidateForDR i ∧
        considerIndexForDR acc i = ⟨some i, i.keyTupleLength, i.name⟩) := by
  rw [considerIndexForDR]
  split
  · split
    · exact Or.inr ⟨‹i.isUniqueIndex = true ∧ i.isPartialIndex = false›, rfl⟩
    · exact Or.inl rfl
  · exact Or.inl rfl

lemma foldl_consider_provenance {l : List TableIndexInfo} {acc : SmallestAcc}
    {r : TableIndexInfo}
    (h : (l.foldl considerIndexForDR acc).smallestUniqueIndex = some r) :
    acc.smallestUniqueIndex = some r ∨ (r ∈ l ∧ candidateForDR r) := by
  induction l generalizing acc with
  | nil => exact Or.inl h
  | cons i l ih =>
    rw [List.foldl_cons] at h
    rcases ih h with h2 | h2
    · rcases considerIndexForDR_cases acc i with hs | ⟨hc, hs⟩
      · rw [hs] at h2
        exact Or.inl h2
      · rw [hs] at h2
        have hir : i = r := by simpa using h2
        exact Or.inr ⟨hir ▸ List.mem_cons_self i l, hir ▸ hc⟩
    · exact Or.inr ⟨List.mem_cons_of_mem i h2.1, h2.2⟩

lemma foldl_consider_min {l : List TableIndexInfo} {acc : SmallestAcc}
    {r : TableIndexInfo}
    (hall : ∀ i ∈ l, candidateForDR i → i.keyUsesNonInlinedMemory = false)
    (hgood : accGood acc)
    (hres : (l.foldl considerIndexForDR acc).smallestUniqueIndex = some r) :
    (∀ b, acc.smallestUniqueIndex = some b → keyLex r b) ∧
    (∀ i ∈ l, candidateForDR i → keyLex r i) := by
  induction l generalizing acc with
  | nil =>
    refine ⟨fun b hb => ?_, by simp⟩
    rw [List.foldl_nil] at hres
    cases Option.some.inj (hres.symm.trans hb)
    exact keyLex_refl r
  | cons i l ih =>
    rw [List.foldl_cons] at hres
    have halltail : ∀ j ∈ l, candidateForDR j → j.keyUsesNonInlinedMemory = false :=
      fun j hj => hall j (List.mem_cons_of_mem i hj)
    by_cases hc : candidateForDR i
    · have hinl : i.keyUsesNonInlinedMemory = false :=
        hall i (List.mem_cons_self i l) hc
      rw [considerIndexForDR, if_pos hc] at hres
      by_cases hrep : acc.smallestUniqueIndex = none ∨
          (∃ b, acc.smallestUniqueIndex = some b ∧
            b.keyUsesNonInlinedMemory = true ∧ i.keyUsesNonInlinedMemory = false) ∨
          i.keyTupleLength < acc.smallestIndexTupleLength ∨
          (i.keyTupleLength = acc.smallestIndexTupleLength ∧
            i.name < acc.smallestUniqueIndexName)
      · rw [if_pos hrep] at hres
        have hgood2 : accGood ⟨some i, i.keyTupleLength, i.name⟩ :=
          Or.inr ⟨i, rfl, hinl, rfl, rfl⟩
        have ih2 := ih halltail hgood2 hres
        have hri : keyLex r i := ih2.1 i rfl
        refine ⟨fun b hb => ?_, fun j hj hcj => ?_⟩
        · rcases hgood with hnone | ⟨b2, hb2, hbinl, hlen, hname⟩
          · rw [hnone] at hb
            cases hb
          · have hbb : b2 = b := Option.some.inj (hb2.symm.trans hb)
            subst hbb
            have hib : keyLex i b2 := by
              rcases hrep with hx | hx | hx | hx
              · rw [hb2] at hx
                cases hx
              · obtain ⟨c, hc2, hcni, _⟩ := hx
                cases Option.some.inj (hb2.symm.trans hc2)
                rw [hbinl] at hcni
                cases hcni
              · rw [hlen] at hx
                exact Or.inl hx
              · rw [hlen] at hx
                rw [hname] at hx
                exact Or.inr ⟨hx.1, le_of_lt hx.2⟩
            exact keyLex_trans hri hib
        · rcases List.mem_cons.mp hj with rfl | hj2
          · exact hri
          · exact ih2.2 j hj2 hcj
      · rw [if_neg hrep] at hres
        have ih2 := ih halltail hgood hres
        refine ⟨ih2.1, fun j hj hcj => ?_⟩
        rcases List.mem_cons.mp hj with rfl | hj2
        · push_neg at hrep
          obtain ⟨hne, _, hnlt, hneq⟩ := hrep
          rcases hgood with hnone | ⟨b2, hb2, hbinl, hlen, hname⟩
          · exact absurd hnone hne
          · have hrb := ih2.1 b2 hb2
            have hble : b2.keyTupleLength ≤ j.keyTupleLength := by
              rw [hlen] at hnlt
              omega
            have hbj : keyLex b2 j := by
              rcases lt_or_eq_of_le hble with hlt | heq
              · exact Or.inl hlt
              · refine Or.inr ⟨heq, ?_⟩
                have hj_eq : j.keyTupleLength = acc.smallestIndexTupleLength :=
                  (hlen.trans heq).symm
                have hnl := hneq hj_eq
                rw [hname] at hnl
                exact le_of_not_lt hnl
            exact keyLex_trans hrb hbj
        · exact ih2.2 j hj2 hcj
    · rw [considerIndexForDR_of_not_candidate hc] at hres
      have ih2 := ih halltail hgood hres
      refine ⟨ih2.1, fun j hj hcj => ?_⟩
      rcases List.mem_cons.mp hj with rfl | hj2
      · exact absurd hcj hc
      · exact ih2.2 j hj2 hcj

/-- **C7 counterexample.** `computeSmallestUniqueIndex` does not always return
the unique, non-partial index of smallest key tuple length: with a length-4
unique non-partial index whose key uses non-inlined memory listed before a
length-8 unique non-partial index with an inline key, the code returns the
length-8 index. -/
theorem c7_counterexample :
    computeSmallestUniqueIndex [drIdxA, drIdxB] = some drIdxB ∧
    drIdxA.isUniqueIndex = true ∧ drIdxA.isPartialIndex = false ∧
    drIdxA.keyTupleLength < drIdxB.keyTupleLength := by
  exact ⟨by decide, rfl, rfl, by decide⟩

/-- **C7 (amended).** `getUniqueIndexForDR` returns `(none, 0)` in
active-active mode and when no unique non-partial index exists; otherwise it
returns a unique, non-partial index from the table's list together with the
CRC32C over that index's column-indices array; and whenever every unique
non-partial index has an inline key, the returned index is smallest by key
tuple length with the lexicographically smallest name as tiebreaker.  (An
inline-key index can displace a previously chosen index whose key lives in
non-inlined memory regardless of length, scanning the list in order.) -/
theorem c7_unique_index_for_dr (idxs : List TableIndexInfo) (r : TableIndexInfo) :
    getUniqueIndexForDR true idxs = (none, 0) ∧
    ((∀ i ∈ idxs, ¬ candidateForDR i) → getUniqueIndexForDR false idxs = (none, 0)) ∧
    (computeSmallestUniqueIndex idxs = some r →
      r ∈ idxs ∧ candidateForDR r ∧
      getUniqueIndexForDR false idxs = (some r, smallestUniqueIndexCrc r)) ∧
    ((∀ i ∈ idxs, candidateForDR i → i.keyUsesNonInlinedMemory = false) →
      computeSmallestUniqueIndex idxs = some r →
      ∀ i ∈ idxs, candidateForDR i → keyLex r i) := by
  refine ⟨rfl, ?_, ?_, ?_⟩
  · intro h
    have hnone : computeSmallestUniqueIndex idxs = none := by
      rw [computeSmallestUniqueIndex, foldl_consider_skip h]
    simp [getUniqueIndexForDR, hnone]
  · intro h
    have h2 := h
    rw [computeSmallestUniqueIndex] at h2
    rcases foldl_consider_provenance h2 with hx | hx
    · cases hx
    · exact ⟨hx.1, hx.2, by simp [getUniqueIndexForDR, h]⟩
  · intro hall h
    rw [computeSmallestUniqueIndex] at h
    exact (foldl_consider_min hall (Or.inl rfl) h).2

/-- Witness for **C7 (amended)**: on the concrete two-index table the
selection returns the length-4 index `drIdxC`, which is unique, non-partial,
a member of the list, and paired with the CRC32C of its column indices. -/
theorem c7_unique_index_for_dr_witness :
    drIdxC ∈ [drIdxC, drIdxD] ∧ candidateForDR drIdxC ∧
    getUniqueIndexForDR false [drIdxC, drIdxD]
      = (some drIdxC, smallestUniqueIndexCrc drIdxC) :=
  (c7_unique_index_for_dr [drIdxC, drIdxD] drIdxC).2.2.1 (by decide)

lemma addEntry_none_deleteEntry {idx idx2 : MIndex} {t : PTuple}
    (h : addEntry idx t = (idx2, none)) : deleteEntry idx2 t = idx := by
  rw [addEntry] at h
  by_cases hu : idx.isUniqueIndex
  · rw [if_pos hu] at h
    cases hf : idx.entries.find? (fun r => mKeyOf idx.cols r == mKeyOf idx.cols t) with
    | some r =>
      rw [hf] at h
      injection h with h1 h2
      cases h2
    | none =>
      rw [hf] at h
      injection h with h1 h2
      rw [← h1, deleteEntry]
      simp
  · rw [if_neg hu] at h
    injection h with h1 h2
    rw [← h1, deleteEntry]
    simp

lemma addEntry_some_mem {idx idx2 : MIndex} {t c : PTuple}
    (h : addEntry idx t = (idx2, some c)) :
    idx.isUniqueIndex = true ∧ c ∈ idx.entries ∧
      mKeyOf idx.cols c = mKeyOf idx.cols t := by
  rw [addEntry] at h
  by_cases hu : idx.isUniqueIndex
  · rw [if_pos hu] at h
    cases hf : idx.entries.find? (fun r => mKeyOf idx.cols r == mKeyOf idx.cols t) with
    | some r =>
      rw [hf] at h
      injection h with h1 h2
      cases Option.some.inj h2
      have hp := List.find?_some hf
      exact ⟨hu, List.mem_of_find?_eq_some hf, eq_of_beq hp⟩
    | none =>
      rw [hf] at h
      injection h with h1 h2
      cases h2
  · rw [if_neg hu] at h
    injection h with h1 h2
    cases h2

lemma tryInsert_conflict_restores {idxs : List MIndex} {idxs2 : List MIndex}
    {t c : PTuple}
    (h : tryInsertOnAllIndexes idxs t = (idxs2, some c)) : idxs2 = idxs := by
  induction idxs generalizing idxs2 with
  | nil => simp [tryInsertOnAllIndexes] at h
  | cons idx rest ih =>
    rw [tryInsertOnAllIndexes] at h
    cases ha : addEntry idx t with
    | mk idx2 conflict =>
      rw [ha] at h
      cases conflict with
      | some c2 =>
        injection h with h1 h2
        exact h1.symm
      | none =>
        cases htr : tryInsertOnAllIndexes rest t with
        | mk rest2 conf2 =>
          rw [htr] at h
          cases conf2 with
          | some c3 =>
            injection h with h1 h2
            cases Option.some.inj h2
            rw [← h1, addEntry_none_deleteEntry ha, ih htr]
          | none =>
            injection h with h1 h2
            cases h2

lemma tryInsert_conflict_source {idxs : List MIndex} {idxs2 : List MIndex}
    {t c : PTuple}
    (h : tryInsertOnAllIndexes idxs t = (idxs2, some c)) :
    ∃ idx ∈ idxs, idx.isUniqueIndex = true ∧ c ∈ idx.entries ∧
      mKeyOf idx.cols c = mKeyOf idx.cols t := by
  induction idxs generalizing idxs2 with
  | nil => simp [tryInsertOnAllIndexes] at h
  | cons idx rest ih =>
    rw [tryInsertOnAllIndexes] at h
    cases ha : addEntry idx t with
    | mk idx2 conflict =>
      rw [ha] at h
      cases conflict with
      | some c2 =>
        injection h with h1 h2
        cases Option.some.inj h2
        obtain ⟨hu, hm, hk⟩ := addEntry_some_mem ha
        exact ⟨idx, List.mem_cons_self idx rest, hu, hm, hk⟩
      | none =>
        cases htr : tryInsertOnAllIndexes rest t with
        | mk rest2 conf2 =>
          rw [htr] at h
          cases conf2 with
          | some c3 =>
            injection h with h1 h2
            cases Option.some.inj h2
            obtain ⟨idx0, hmem, hrest⟩ := ih htr
            exact ⟨idx0, List.mem_cons_of_mem idx hmem, hrest⟩
          | none =>
            injection h with h1 h2
            cases h2

lemma insertPersistentTuple_conflict {tbl : WTable} (stream : List DRRec)
    {source : PTuple} {fallible : Bool} {idxs2 : List MIndex} {c : PTuple}
    (hlimit : ¬ (fallible ∧ tbl.tupleLimit ≤ tbl.rows.length))
    (hnulls : ¬ (fallible ∧ checkNulls tbl.allowNulls source = false))
    (hconf : tryInsertOnAllIndexes tbl.idxs source = (idxs2, some c)) :
    insertPersistentTuple tbl stream source fallible =
      ⟨some (WriteErr.constraintUnique c), tbl, stream,
        [WEvent.slotWrite] ++
          (if tbl.drEnabled ∧ ¬ tbl.isMaterialized then [WEvent.drAppend] else []) ++
          [WEvent.storageMutate, WEvent.indexMutate, WEvent.drRollback,
            WEvent.slotRelease]⟩ := by
  rw [insertPersistentTuple, if_neg hlimit, if_neg hnulls]
  simp only [hconf]
  have hidx : ({ tbl with idxs := idxs2 } : WTable) = tbl := by
    rw [tryInsert_conflict_restores hconf]
  rw [hidx]
  by_cases hdr : tbl.drEnabled ∧ ¬ tbl.isMaterialized
  · simp only [if_pos hdr]
    rw [List.take_left]
  · simp only [if_neg hdr]
    rw [List.take_length]

/-- **C3.** An insert whose tuple conflicts with a unique index fails with a
unique-constraint error carrying the conflicting tuple — an existing entry of
a unique index whose key matches the inserted tuple — and before failing it
removes the index entries it had already added and rolls the DR stream back
to the pre-insert mark: the table (rows and all indexes) and the stream end
exactly as they started. -/
theorem c3_insert_unique_conflict (tbl : WTable) (stream : List DRRec)
    (source : PTuple) (fallible : Bool) (idxs2 : List MIndex) (c : PTuple)
    (hlimit : ¬ (fallible ∧ tbl.tupleLimit ≤ tbl.rows.length))
    (hnulls : ¬ (fallible ∧ checkNulls tbl.allowNulls source = false))
    (hconf : tryInsertOnAllIndexes tbl.idxs source = (idxs2, some c)) :
    (insertPersistentTuple tbl stream source fallible).err
        = some (WriteErr.constraintUnique c) ∧
    (insertPersistentTuple tbl stream source fallible).tbl = tbl ∧
    (insertPersistentTuple tbl stream source fallible).stream = stream ∧
    ∃ idx ∈ tbl.idxs, idx.isUniqueIndex = true ∧ c ∈ idx.entries ∧
      mKeyOf idx.cols c = mKeyOf idx.cols source := by
  rw [insertPersistentTuple_conflict stream hlimit hnulls hconf]
  exact ⟨rfl, rfl, rfl, tryInsert_conflict_source hconf⟩

/-- A unique index on column 0 already holding the row `(1, 9)`. -/
def c3Idx : MIndex := ⟨[0], true, false, [[some 1, some 9]]⟩

/-- A concrete DR-enabled table with one unique index and one row. -/
def c3Tbl : WTable := ⟨[true, true], 100, false, true, [[some 1, some 9]], [c3Idx]⟩

/-- Witness for **C3**: inserting `(1, 5)` into `c3Tbl` conflicts on the
unique index, reports the existing row `(1, 9)`, and leaves the table and
the DR stream untouched. -/
theorem c3_insert_unique_conflict_witness :
    (insertPersistentTuple c3Tbl [] [some 1, some 5] true).err
        = some (WriteErr.constraintUnique [some 1, some 9]) ∧
    (insertPersistentTuple c3Tbl [] [some 1, some 5] true).tbl = c3Tbl ∧
    (insertPersistentTuple c3Tbl [] [some 1, some 5] true).stream = [] :=
  have h := c3_insert_unique_conflict c3Tbl [] [some 1, some 5] true
    c3Tbl.idxs [some 1, some 9] (by decide) (by decide) (by decide)
  ⟨h.1, h.2.1, h.2.2.1⟩

/-- A concrete DR-enabled table with no indexes, no rows, room to insert. -/
def c2Tbl : WTable := ⟨[true], 100, false, true, [], []⟩

/-- A concrete DR-enabled table whose unique index on column 0 already holds
the row `(1, 9)`: inserting another key-1 row conflicts. -/
def c2ConfTbl : WTable :=
  ⟨[true, true], 100, false, true, [[some 1, some 9]],
    [⟨[0], true, false, [[some 1, some 9]]⟩]⟩

/-- **C2 counterexample.** A successful DR-streamed insert violates the
claimed ordering "the DR record is appended before the operation mutates
tuple storage": `insertPersistentTuple` copies the source image into a
tuple-storage slot (`nextFreeTuple` + `copyForPersistentInsert`, the
`slotWrite` step) before the DR append, so an append does not precede every
tuple-storage write. -/
theorem c2_counterexample :
    appendsPrecede mutatesStorageOrIndexes
        (insertPersistentTuple c2Tbl [] [some 3] true).trace = false ∧
    (insertPersistentTuple c2Tbl [] [some 3] true).err = none ∧
    writesTupleStorage WEvent.slotWrite = true := by decide

/-- **C2 (amended).** For update and delete with DR enabled, the DR record is
appended before any mutation of tuple storage or indexes; for insert the
tuple image is first staged into a newly allocated, not-yet-visible slot, and
the DR append precedes every mutation of the visible state (activation and
all index writes); and when the insert's mutation then fails with a
unique-constraint conflict, the DR stream is rolled back to the pre-append
mark and the staged slot is released, leaving stream and table as if the
operation never ran. -/
theorem c2_dr_append_order (tbl : WTable) (stream : List DRRec)
    (source target told tnew : PTuple) (inUpdateSet : MIndex → Bool)
    (fallible : Bool) (c : PTuple) :
    appendsPrecede mutatesVisibleState
      (insertPersistentTuple tbl stream source fallible).trace = true ∧
    appendsPrecede mutatesStorageOrIndexes
      (deleteTupleOp tbl stream target fallible).trace = true ∧
    appendsPrecede mutatesStorageOrIndexes
      (updateTupleOp tbl stream told tnew inUpdateSet fallible).trace = true ∧
    ((insertPersistentTuple tbl stream source fallible).err
        = some (WriteErr.constraintUnique c) →
      (insertPersistentTuple tbl stream source fallible).stream = stream ∧
      (insertPersistentTuple tbl stream source fallible).tbl = tbl) := by
  refine ⟨?_, ?_, ?_, ?_⟩
  · by_cases h1 : fallible ∧ tbl.tupleLimit ≤ tbl.rows.length
    · rw [insertPersistentTuple, if_pos h1]
      rfl
    · by_cases h2 : fallible ∧ checkNulls tbl.allowNulls source = false
      · rw [insertPersistentTuple, if_neg h1, if_pos h2]
        rfl
      · rw [insertPersistentTuple, if_neg h1, if_neg h2]
        by_cases h3 : tbl.drEnabled ∧ ¬ tbl.isMaterialized
        · simp only [if_pos h3]
          cases htry : tryInsertOnAllIndexes tbl.idxs source with
          | mk idxs2 conflict =>
            cases conflict
            all_goals simp only [htry]
            all_goals rfl
        · simp only [if_neg h3]
          cases htry : tryInsertOnAllIndexes tbl.idxs source with
          | mk idxs2 conflict =>
            cases conflict
            all_goals simp only [htry]
            all_goals rfl
  · by_cases hm : target ∈ tbl.rows
    · rw [deleteTupleOp, if_pos hm]
      by_cases h3 : tbl.drEnabled ∧ ¬ tbl.isMaterialized
      · simp only [if_pos h3]
        rfl
      · simp only [if_neg h3]
        rfl
    · rw [deleteTupleOp, if_neg hm]
      rfl
  · by_cases h1 : fallible ∧ checkUpdateOnUniqueIndexes told tnew
        (tbl.idxs.filter inUpdateSet) = false
    · rw [updateTupleOp, if_pos h1]
      rfl
    · by_cases h2 : fallible ∧ checkNulls tbl.allowNulls tnew = false
      · rw [updateTupleOp, if_neg h1, if_pos h2]
        rfl
      · rw [updateTupleOp, if_neg h1, if_neg h2]
        by_cases h3 : tbl.drEnabled ∧ ¬ tbl.isMaterialized
        · simp only [if_pos h3]
          rfl
        · simp only [if_neg h3]
          rfl
  · intro herr
    by_cases h1 : fallible ∧ tbl.tupleLimit ≤ tbl.rows.length
    · rw [insertPersistentTuple, if_pos h1] at herr
      cases Option.some.inj herr
    · by_cases h2 : fallible ∧ checkNulls tbl.allowNulls source = false
      · rw [insertPersistentTuple, if_neg h1, if_pos h2] at herr
        cases Option.some.inj herr
      · cases htry : tryInsertOnAllIndexes tbl.idxs source with
        | mk idxs2 conflict =>
          cases conflict with
          | none =>
            rw [insertPersistentTuple, if_neg h1, if_neg h2] at herr
            simp only [htry] at herr
            cases herr
          | some c2 =>
            have heq := insertPersistentTuple_conflict stream h1 h2 htry
            rw [heq] at herr
            have hc : WriteErr.constraintUnique c2 = WriteErr.constraintUnique c :=
              Option.some.inj herr
            cases hc
            rw [heq]
            exact ⟨rfl, rfl⟩

/-- Witness for **C2 (amended)**: at the concrete conflicting insert into
`c2ConfTbl`, the unique-constraint failure leaves the DR stream and the
table exactly as they were. -/
theorem c2_dr_append_order_witness :
    (insertPersistentTuple c2ConfTbl [] [some 1, some 5] true).stream
        = ([] : List DRRec) ∧
    (insertPersistentTuple c2ConfTbl [] [some 1, some 5] true).tbl = c2ConfTbl :=
  (c2_dr_append_order c2ConfTbl [] [some 1, some 5] [] [] [] (fun _ => true)
    true [some 1, some 9]).2.2.2 (by decide)

lemma slotAt_cons {s : Nat × HTuple} {rest : List (Nat × HTuple)} {addr : Nat} :
    slotAt (s :: rest) addr = if s.1 = addr then some s.2 else slotAt rest addr := by
  by_cases h : s.1 = addr
  · rw [if_pos h, slotAt, List.find?_cons_of_pos _ (by simp [h])]
    rfl
  · rw [if_neg h, slotAt, List.find?_cons_of_neg _ (by simp [h])]
    rfl

lemma slotAt_setSlot_same {slots : List (Nat × HTuple)} {addr : Nat}
    {t u : HTuple} (h : slotAt slots addr = some u) :
    slotAt (setSlot slots addr t) addr = some t := by
  induction slots with
  | nil => simp [slotAt] at h
  | cons s rest ih =>
    by_cases hs : s.1 = addr
    · simp only [setSlot, List.map_cons, if_pos hs]
      rw [slotAt_cons]
      simp
    · rw [slotAt_cons, if_neg hs] at h
      simp only [setSlot, List.map_cons, if_neg hs]
      rw [slotAt_cons, if_neg hs]
      exact ih h

lemma slotAt_setSlot_other {slots : List (Nat × HTuple)} {addr a : Nat}
    {t : HTuple} (h : a ≠ addr) :
    slotAt (setSlot slots addr t) a = slotAt slots a := by
  induction slots with
  | nil => rfl
  | cons s rest ih =>
    by_cases hs : s.1 = addr
    · simp only [setSlot, List.map_cons, if_pos hs]
      rw [slotAt_cons, slotAt_cons]
      rw [if_neg (fun hh => h ((hh : addr = a)).symm),
        if_neg (fun hh => h ((hs.symm.trans hh)).symm)]
      exact ih
    · simp only [setSlot, List.map_cons, if_neg hs]
      rw [slotAt_cons, slotAt_cons]
      by_cases hsa : s.1 = a
      · rw [if_pos hsa, if_pos hsa]
      · rw [if_neg hsa, if_neg hsa]
        exact ih

/-- **C10.** `swapTuples` refuses (the assertion fires) exactly when the
moved tuple is flagged pending-delete-on-undo-release — such a tuple is
never moved; on success the destination slot holds the moved tuple's bytes
(flags included), the original slot is deactivated, a pending-delete tuple's
move touches no index, and otherwise every index entry for the original
address is rewritten to the destination address via
`replaceEntryNoKeyChange`, so no index retains the original address. -/
theorem c10_swap_tuples (slots : List (Nat × HTuple)) (idxs : List CIndex)
    (origAddr destAddr : Nat) (orig dst : HTuple)
    (hslot : slotAt slots origAddr = some orig)
    (hdst : slotAt slots destAddr = some dst)
    (hdiff : origAddr ≠ destAddr) :
    (swapTuples slots idxs origAddr destAddr = none ↔
      orig.pendingDeleteOnUndoRelease = true) ∧
    (∀ slots2 idxs2,
      swapTuples slots idxs origAddr destAddr = some (slots2, idxs2) →
      slotAt slots2 destAddr = some orig ∧
      slotAt slots2 origAddr = some { orig with active := false } ∧
      (orig.pendingDelete = true → idxs2 = idxs) ∧
      (orig.pendingDelete = false →
        idxs2 = idxs.map (fun idx => replaceEntryNoKeyChange idx destAddr origAddr) ∧
        ∀ idx ∈ idxs2, origAddr ∉ idx.entries)) := by
  constructor
  · simp only [swapTuples, hslot]
    by_cases hp : orig.pendingDeleteOnUndoRelease
    · simp [hp]
    · simp [hp]
  · intro slots2 idxs2 hsw
    simp only [swapTuples, hslot] at hsw
    by_cases hp : orig.pendingDeleteOnUndoRelease
    · rw [if_pos hp] at hsw
      cases hsw
    · rw [if_neg hp] at hsw
      have hpair := Option.some.inj hsw
      have h1 : setSlot (setSlot slots destAddr orig) origAddr
          { orig with active := false } = slots2 := congrArg Prod.fst hpair
      have h2 : (if orig.pendingDelete then idxs
          else idxs.map (fun idx => replaceEntryNoKeyChange idx destAddr origAddr))
          = idxs2 := congrArg Prod.snd hpair
      refine ⟨?_, ?_, ?_, ?_⟩
      · rw [← h1, slotAt_setSlot_other hdiff.symm]
        exact slotAt_setSlot_same hdst
      · have hmid : slotAt (setSlot slots destAddr orig) origAddr = some orig := by
          rw [slotAt_setSlot_other hdiff]
          exact hslot
        rw [← h1]
        exact slotAt_setSlot_same hmid
      · intro hpd
        rw [← h2, if_pos hpd]
      · intro hpd
        rw [← h2, if_neg (by simp [hpd])]
        refine ⟨rfl, ?_⟩
        intro idx hidx hmem
        obtain ⟨idx0, _, rfl⟩ := List.mem_map.mp hidx
        obtain ⟨a, _, ha⟩ := List.mem_map.mp hmem
        by_cases haa : a = origAddr
        · rw [if_pos haa] at ha
          exact hdiff ha.symm
        · rw [if_neg haa] at ha
          exact haa ha

/-- Witness for **C10**: moving the active tuple at address 0 of `c10Slots`
to address 1 copies its record to slot 1, deactivates slot 0, and rewrites
the index entry 0 to 1. -/
theorem c10_swap_tuples_witness :
    slotAt c10SwapSlots 1 = some ⟨[7], true, false, false⟩ ∧
    slotAt c10SwapSlots 0 = some ⟨[7], false, false, false⟩ ∧
    c10SwapIdxs = c10Idxs.map (fun idx => replaceEntryNoKeyChange idx 1 0) :=
  have h := (c10_swap_tuples c10Slots c10Idxs 0 1
    ⟨[7], true, false, false⟩ ⟨[0], false, false, false⟩
    (by decide) (by decide) (by decide)).2 c10SwapSlots c10SwapIdxs (by decide)
  ⟨h.1, h.2.1, (h.2.2.2 rfl).1⟩

lemma applyTxOp_undo {op : TxOp} {tbl tbl2 : Multiset PTuple}
    (h : applyTxOp op tbl = some tbl2) : undoTxOp op tbl2 = tbl := by
  cases op with
  | insOp t =>
    simp only [applyTxOp] at h
    cases Option.some.inj h
    simp [undoTxOp]
  | delOp t =>
    simp only [applyTxOp] at h
    by_cases hm : t ∈ tbl
    · rw [if_pos hm] at h
      cases Option.some.inj h
      simp only [undoTxOp]
      exact Multiset.cons_erase hm
    · rw [if_neg hm] at h
      cases h
  | updOp told tnew =>
    simp only [applyTxOp] at h
    by_cases hm : told ∈ tbl
    · rw [if_pos hm] at h
      cases Option.some.inj h
      simp only [undoTxOp, Multiset.erase_cons_head]
      exact Multiset.cons_erase hm
    · rw [if_neg hm] at h
      cases h

lemma appendRecord_rollback {st : TxStream} {r : DRRec} {st2 : TxStream}
    {mark : Nat} (h : appendRecord st r = some (st2, mark)) :
    rollbackTo st2 mark 1 = st := by
  rw [appendRecord] at h
  by_cases hb : st.rowTarget ≤ st.txnRowCount
  · rw [if_pos hb] at h
    cases h
  · rw [if_neg hb] at h
    have hpair := Option.some.inj h
    injection hpair with hst2 hmark
    rw [rollbackTo, ← hst2, ← hmark]
    simp [List.take_left]

lemma runTxOps_ok_restores {ops : List TxOp} {st : Multiset PTuple × TxStream}
    {undo : List (TxOp × Nat)} {st2 : Multiset PTuple × TxStream}
    {undo2 : List (TxOp × Nat)}
    (h : runTxOps ops st undo = Except.ok (st2, undo2)) :
    runUndo undo2 st2 = runUndo undo st := by
  induction ops generalizing st undo with
  | nil =>
    simp only [runTxOps] at h
    have hp := Except.ok.inj h
    injection hp with h1 h2
    rw [← h1, ← h2]
  | cons op rest ih =>
    cases hap : applyTxOp op st.1 with
    | none =>
      simp only [runTxOps, hap] at h
      cases h
    | some tbl2 =>
      cases har : appendRecord st.2 (recFor op) with
      | none =>
        simp only [runTxOps, hap, har] at h
        cases h
      | some p =>
        cases p with
        | mk stb mark =>
          simp only [runTxOps, hap, har] at h
          rw [ih h, runUndo, applyTxOp_undo hap, appendRecord_rollback har]

lemma runTxOps_err_restores {ops : List TxOp} {st : Multiset PTuple × TxStream}
    {undo : List (TxOp × Nat)} {f : TxFail} {stF : Multiset PTuple × TxStream}
    {undoF : List (TxOp × Nat)}
    (h : runTxOps ops st undo = Except.error (f, stF, undoF)) :
    runUndo undoF stF = runUndo undo st := by
  induction ops generalizing st undo with
  | nil =>
    simp only [runTxOps] at h
    cases h
  | cons op rest ih =>
    cases hap : applyTxOp op st.1 with
    | none =>
      simp only [runTxOps, hap] at h
      have hp := Except.error.inj h
      injection hp with h1 h2
      injection h2 with h3 h4
      rw [← h3, ← h4]
    | some tbl2 =>
      cases har : appendRecord st.2 (recFor op) with
      | none =>
        simp only [runTxOps, hap, har] at h
        have hp := Except.error.inj h
        injection hp with h1 h2
        injection h2 with h3 h4
        rw [← h3, ← h4]
      | some p =>
        cases p with
        | mk stb mark =>
          simp only [runTxOps, hap, har] at h
          rw [ih h, runUndo, applyTxOp_undo hap, appendRecord_rollback har]

lemma runTxOps_overflow_budget {ops : List TxOp}
    {st : Multiset PTuple × TxStream} {undo : List (TxOp × Nat)}
    {stF : Multiset PTuple × TxStream} {undoF : List (TxOp × Nat)}
    (h : runTxOps ops st undo = Except.error (TxFail.bufferOverflow, stF, undoF)) :
    stF.2.rowTarget ≤ stF.2.txnRowCount := by
  induction ops generalizing st undo with
  | nil =>
    simp only [runTxOps] at h
    cases h
  | cons op rest ih =>
    cases hap : applyTxOp op st.1 with
    | none =>
      simp only [runTxOps, hap] at h
      have hp := Except.error.inj h
      injection hp with h1 h2
      cases h1
    | some tbl2 =>
      cases har : appendRecord st.2 (recFor op) with
      | none =>
        simp only [runTxOps, hap, har] at h
        have hp := Except.error.inj h
        injection hp with h1 h2
        injection h2 with h3 h4
        rw [appendRecord] at har
        by_cases hb : st.2.rowTarget ≤ st.2.txnRowCount
        · rw [← h3]
          exact hb
        · rw [if_neg hb] at har
          cases har
      | some p =>
        cases p with
        | mk stb mark =>
          simp only [runTxOps, hap, har] at h
          exact ih h

/-- **C1.** A transaction that is aborted before `endTransaction`: running
its undo actions in reverse (each reversing its storage mutation and calling
`rollbackTo` with its mark) returns the table to its exact pre-transaction
state, and the DR stream publishes no bytes from the transaction — a flush
pushes no buffer to the topend, and `lastCommittedSequenceNumber` (part of
`getLastCommittedSequenceNumberAndUniqueIds`) is unchanged. -/
theorem c1_abort_restores (ops : List TxOp) (tbl : Multiset PTuple)
    (st : TxStream) (st2 : Multiset PTuple × TxStream)
    (undo2 : List (TxOp × Nat))
    (hclosed : st.closed = [])
    (hrun : runTxOps ops (tbl, st) [] = Except.ok (st2, undo2)) :
    runUndo undo2 st2 = (tbl, st) ∧
    (flushStream (runUndo undo2 st2).2).published = st.published ∧
    (runUndo undo2 st2).2.committedSeq = st.committedSeq := by
  have hres : runUndo undo2 st2 = (tbl, st) := runTxOps_ok_restores hrun
  refine ⟨hres, ?_, ?_⟩
  · rw [hres]
    simp [flushStream, hclosed]
  · rw [hres]

/-- Witness for **C1**: a single-insert transaction on an empty table with a
fresh stream, aborted; the undo run restores the empty table and the fresh
stream exactly. -/
theorem c1_abort_restores_witness :
    runUndo [(TxOp.insOp [some 1], 0)]
        (([some 1] : PTuple) ::ₘ 0,
          { freshStream with openBuf := [DRRec.insertRec [some 1]],
                             txnRowCount := 1 })
      = ((0 : Multiset PTuple), freshStream) :=
  (c1_abort_restores [TxOp.insOp [some 1]] 0 freshStream
    (([some 1] : PTuple) ::ₘ 0,
      { freshStream with openBuf := [DRRec.insertRec [some 1]],
                         txnRowCount := 1 })
    [(TxOp.insOp [some 1], 0)] rfl rfl).1

/-- **C9.** When a transaction's DR row emissions exceed the per-transaction
row budget, the run fails with the buffer-overflow error at a point where
the budget is exhausted (`rowTarget ≤ txnRowCount`), the failing operation
has mutated nothing, and after the caller aborts and runs the accumulated
undo actions every row of the transaction is rolled back — the table equals
its pre-transaction state and the DR stream equals its pre-transaction
state, so a flush publishes nothing and no partial rows can reach the
replica. -/
theorem c9_overflow_rolls_back (ops : List TxOp) (tbl : Multiset PTuple)
    (st : TxStream) (stF : Multiset PTuple × TxStream)
    (undoF : List (TxOp × Nat))
    (hclosed : st.closed = [])
    (hrun : runTxOps ops (tbl, st) [] =
      Except.error (TxFail.bufferOverflow, stF, undoF)) :
    stF.2.rowTarget ≤ stF.2.txnRowCount ∧
    runUndo undoF stF = (tbl, st) ∧
    (flushStream (runUndo undoF stF).2).published = st.published := by
  have hres : runUndo undoF stF = (tbl, st) := runTxOps_err_restores hrun
  refine ⟨runTxOps_overflow_budget hrun, hres, ?_⟩
  rw [hres]
  simp [flushStream, hclosed]

/-- Witness for **C9**: with a row budget of one, a two-insert transaction
overflows on the second append; the undo run restores the empty table and
the original stream. -/
theorem c9_overflow_rolls_back_witness :
    (1 : Nat) ≤ 1 ∧
    runUndo [(TxOp.insOp [some 1], 0)]
        (([some 1] : PTuple) ::ₘ 0,
          { tinyStream with openBuf := [DRRec.insertRec [some 1]],
                            txnRowCount := 1 })
      = ((0 : Multiset PTuple), tinyStream) :=
  have h := c9_overflow_rolls_back [TxOp.insOp [some 1], TxOp.insOp [some 2]]
    0 tinyStream
    (([some 1] : PTuple) ::ₘ 0,
      { tinyStream with openBuf := [DRRec.insertRec [some 1]],
                        txnRowCount := 1 })
    [(TxOp.insOp [some 1], 0)] rfl rfl
  ⟨h.1, h.2.1⟩

lemma exportConflictRows_length (rep : ConflictReport) :
    (exportConflictRows rep).length = includedTupleCount rep := by
  simp [exportConflictRows, includedTupleCount]
  omega

/-- **C5 counterexample.** The claimed formula "export rows = 1 + number of
included tuples" fails on the code's behaviour at the spec's own scenarios:
a delete-missing conflict includes one expected tuple and emits exactly 1
export row (the formula predicts 2), and an insert-constraint violation
includes one existing and one new tuple and emits exactly 2 export rows
(the formula predicts 3). -/
theorem c5_counterexample :
    (applyDeleteRecord c5TblEmpty c5Expected).2.deleteConflict
        = DeleteConflictType.expectedRowMissing ∧
    includedTupleCount (applyDeleteRecord c5TblEmpty c5Expected).2 = 1 ∧
    (exportConflictRows (applyDeleteRecord c5TblEmpty c5Expected).2).length = 1 ∧
    (applyInsertRecord c5TblIns c5NewRow).2.insertConflict
        = InsertConflictType.constraintViolation ∧
    includedTupleCount (applyInsertRecord c5TblIns c5NewRow).2 = 2 ∧
    (exportConflictRows (applyInsertRecord c5TblIns c5NewRow).2).length = 2 := by
  decide

/-- **C5 (amended).** The sink classifies each applied record with exactly
one delete-side and one insert-side conflict type (in particular a plain
insert never reports a delete-side conflict and a plain delete never reports
an insert-side conflict), and the number of conflict-export rows emitted
equals the number of non-empty existing/expected/new tuples included in the
report — e.g. 1 for a delete-missing conflict with one expected tuple, 2 for
an insert-constraint violation with one existing and one new tuple. -/
theorem c5_conflict_export_rows (tbl : SinkTable) (expected newRow : SRow) :
    (exportConflictRows (applyDeleteRecord tbl expected).2).length
        = includedTupleCount (applyDeleteRecord tbl expected).2 ∧
    (exportConflictRows (applyInsertRecord tbl newRow).2).length
        = includedTupleCount (applyInsertRecord tbl newRow).2 ∧
    (exportConflictRows (applyUpdateRecord tbl expected newRow).2).length
        = includedTupleCount (applyUpdateRecord tbl expected newRow).2 ∧
    (applyInsertRecord tbl newRow).2.deleteConflict
        = DeleteConflictType.noConflict ∧
    (applyDeleteRecord tbl expected).2.insertConflict
        = InsertConflictType.noConflict := by
  refine ⟨exportConflictRows_length _, exportConflictRows_length _,
    exportConflictRows_length _, ?_, ?_⟩
  · cases hf : sinkFindConflict tbl [] newRow with
    | some r => simp [applyInsertRecord, hf]
    | none => simp [applyInsertRecord, hf]
  · cases h1 : sinkFindForDR tbl expected with
    | some r => simp [applyDeleteRecord, h1]
    | none =>
      cases h2 : sinkFindByPK tbl expected with
      | some r => simp [applyDeleteRecord, h1, h2]
      | none => simp [applyDeleteRecord, h1, h2]

end VoltDB
